import Mathlib

/-!
Verification of the BookPublisherAI content-versioning and review core.

Shallow embedding of `src/storage/chroma_manager.py` (class `ChromaContentManager`)
and `src/interface/human_loop.py` (class `HumanLoopInterface`), together with
theorems settling the specification claims about them.

Modelling conventions:
* ChromaDB collections are modelled as association lists kept in insertion order
  (ChromaDB's `get` returns stored documents; `add` appends).
* Nondeterministic inputs of the Python code (`datetime.now().isoformat()`,
  `uuid.uuid4().hex[:8]`, interactive `input()` answers) are threaded as explicit
  parameters: each Lean operation is the Python operation at a fixed choice of
  those environment values.
* Python `int` fields are `Int` where the code compares them with `<`
  (priorities), and `Nat` for version numbers (the data model declares versions
  positive integers).
-/

namespace BookPublisher

/-! ## Storage layer: `storage/chroma_manager.py` -/

/-- One metadata record as built by `ChromaContentManager.store_content`
(`store_metadata` dict).  The six reserved keys are fields; the caller-supplied
`metadata` dict is the `extra` association list (the repository's callers only
pass keys disjoint from the reserved ones, so `dict.update` is adjunction). -/
structure StoreMeta where
  chapter_id : String
  version : Nat
  content_hash : String
  timestamp : String
  word_count : Nat
  char_count : Nat
  extra : List (String × String)
deriving DecidableEq, Repr

/-- One document of the `book_content` collection: id, raw text, metadata. -/
structure ContentDoc where
  doc_id : String
  content : String
  meta : StoreMeta
deriving DecidableEq, Repr

/-- One entry of the `content_versions` collection
(the `version_data` dict of `_update_version_tracking`). -/
structure VersionEntry where
  version_id : String
  chapter_id : String
  version : Nat
  doc_id : String
  content_hash : String
  created_at : String
deriving DecidableEq, Repr

/-- The two collections of `ChromaContentManager` that the claims concern. -/
structure ChromaState where
  content_collection : List ContentDoc
  versions_collection : List VersionEntry
deriving DecidableEq, Repr

/-- Models `_generate_content_hash`, i.e. `hashlib.sha256(content.encode()).hexdigest()`:
a deterministic digest of the content.  Every claim uses only that equal contents
yield equal digests and (absence of collisions) distinct contents distinct digests,
so the digest is modelled as an injective encoding of the content. -/
def generateContentHash (content : String) : String :=
  "sha256_" ++ toString content.length ++ "_" ++ content

/-- Word counter over a character list, `inWord` tracking whether the previous
character was inside a word.  Counts maximal non-whitespace runs. -/
def countWords : List Char → Bool → Nat
  | [], _ => 0
  | c :: cs, inWord =>
    if c.isWhitespace then countWords cs false
    else (if inWord then 0 else 1) + countWords cs true

/-- Models Python `len(content.split())`: number of maximal whitespace-free runs. -/
def wordCount (content : String) : Nat :=
  countWords content.toList false

/-- The document id built by `store_content`:
`f"{chapter_id}_v{version}_{uuid.uuid4().hex[:8]}"` with the uuid hex supplied
as the `uuidHex` parameter. -/
def docIdFor (chapter_id : String) (version : Nat) (uuidHex : String) : String :=
  chapter_id ++ "_v" ++ toString version ++ "_" ++ uuidHex

/-- The version-tracking id of `_update_version_tracking`:
`f"version_{chapter_id}_{version}"`. -/
def versionIdFor (chapter_id : String) (version : Nat) : String :=
  "version_" ++ chapter_id ++ "_" ++ toString version

/-- The `store_metadata` dict of `store_content` (before being stored):
reserved keys computed from the arguments, then the caller metadata adjoined. -/
def mkStoreMeta (content chapter_id : String) (version : Nat)
    (extra : List (String × String)) (ts : String) : StoreMeta :=
  { chapter_id := chapter_id
    version := version
    content_hash := generateContentHash content
    timestamp := ts
    word_count := wordCount content
    char_count := content.length
    extra := extra }

/-- Models `_update_version_tracking`: an `add` to the `content_versions`
collection under id `version_{chapter_id}_{version}`.  A ChromaDB `add` with an
already-present id does not insert a second entry (it raises, and the method
swallows the exception, or skips, depending on the backend version); in both
behaviours the collection is left unchanged, which is what the `if` models. -/
def updateVersionTracking (st : ChromaState) (chapter_id : String) (version : Nat)
    (doc_id content_hash created_at : String) : ChromaState :=
  let vid := versionIdFor chapter_id version
  if st.versions_collection.any (fun e => e.version_id = vid) then st
  else
    { st with
      versions_collection := st.versions_collection ++
        [{ version_id := vid
           chapter_id := chapter_id
           version := version
           doc_id := doc_id
           content_hash := content_hash
           created_at := created_at }] }

/-- Models `ChromaContentManager.store_content(content, chapter_id, version=1, metadata=None)`.
The Python default for `version` is `1`; the version stored is exactly the
argument.  `ts` is `datetime.now().isoformat()` and `uuidHex` the fresh uuid hex.
Returns the document id and the updated state. -/
def storeContent (st : ChromaState) (content chapter_id : String) (version : Nat)
    (extra : List (String × String)) (ts uuidHex : String) : String × ChromaState :=
  let doc_id := docIdFor chapter_id version uuidHex
  let meta := mkStoreMeta content chapter_id version extra ts
  let st1 : ChromaState :=
    { st with content_collection := st.content_collection ++ [⟨doc_id, content, meta⟩] }
  let st2 := updateVersionTracking st1 chapter_id version doc_id meta.content_hash ts
  (doc_id, st2)

/-- The documents of the content collection whose metadata carries this
chapter id — what `content_collection.get(where={"chapter_id": chapter_id})`
returns. -/
def chapterDocs (st : ChromaState) (chapter_id : String) : List ContentDoc :=
  st.content_collection.filter (fun d => d.meta.chapter_id = chapter_id)

/-- The descending-by-version comparison used to model
`sorted(..., key=lambda x: x[1].get('version', 0), reverse=True)`. -/
def versionGe (a b : ContentDoc) : Prop :=
  b.meta.version ≤ a.meta.version

instance : DecidableRel versionGe := fun _ _ => Nat.decLe _ _

instance : IsTotal ContentDoc versionGe :=
  ⟨fun a b => Nat.le_total b.meta.version a.meta.version⟩

instance : IsTrans ContentDoc versionGe :=
  ⟨fun _ _ _ hab hbc => Nat.le_trans hbc hab⟩

/-- The "latest version" branch of `retrieve_content`: all documents of the
chapter, stably sorted by version descending (Python's `sorted` with
`reverse=True` is stable), first one taken. -/
def latestDoc (st : ChromaState) (chapter_id : String) : Option ContentDoc :=
  (List.insertionSort versionGe (chapterDocs st chapter_id)).head?

/-- Models `ChromaContentManager.retrieve_content(chapter_id, version=None)`.
The Python code branches on `if version:` — the *truthiness* of `version` — so
`version=0` takes the same branch as `version=None`.  A `found=False` result is
modelled as `none`, a `found=True` result as `some (content, metadata)`. -/
def retrieveContent (st : ChromaState) (chapter_id : String) (version : Option Nat) :
    Option (String × StoreMeta) :=
  let useSpecific : Bool :=
    match version with
    | none => false
    | some v => decide (v ≠ 0)
  if useSpecific then
    match (st.content_collection.filter
        (fun d => d.meta.chapter_id = chapter_id ∧ d.meta.version = version.getD 0)).head? with
    | some d => some (d.content, d.meta)
    | none => none
  else
    match latestDoc st chapter_id with
    | some d => some (d.content, d.meta)
    | none => none

/-- A backend reply to `content_collection.query(...)`: the first (and only)
query's documents, metadatas and distances, as parallel lists.  Distances are
modelled as exact rationals; the claims about scores concern only ordering,
sign and the affine map `1 - d`, which agree with the float computation at the
representable inputs considered. -/
structure QueryResponse where
  documents : List String
  metadatas : List StoreMeta
  distances : List ℚ
deriving DecidableEq, Repr

/-- One element of the list returned by `search_similar_content`. -/
structure SearchResult where
  content : String
  metadata : StoreMeta
  similarity_score : ℚ
  rank : Nat
deriving DecidableEq, Repr

/-- The loop body of `search_similar_content`: `enumerate(zip(docs, metas, dists))`
with `similarity_score = 1 - distance` and `rank = i + 1`. -/
def buildSearchResults : Nat → List ((String × StoreMeta) × ℚ) → List SearchResult
  | _, [] => []
  | i, ((doc, meta), d) :: rest =>
    { content := doc
      metadata := meta
      similarity_score := 1 - d
      rank := i + 1 } :: buildSearchResults (i + 1) rest

/-- Models `ChromaContentManager.search_similar_content` applied to a backend
reply (Python's triple `zip` truncates to the shortest list, as nested `zip`
does here). -/
def searchSimilarContent (resp : QueryResponse) : List SearchResult :=
  buildSearchResults 0 ((resp.documents.zip resp.metadatas).zip resp.distances)

/-! ## Review layer: `interface/human_loop.py` -/

/-- The `ReviewRequest` dataclass.  `ai_feedback` (an open dict never read by the
operations under study) is an association list; `priority` is a Python `int`. -/
structure ReviewRequest where
  request_id : String
  content : String
  original_content : String
  ai_feedback : List (String × String)
  review_type : String
  priority : Int
  created_at : String
  status : String
deriving DecidableEq, Repr

/-- The `HumanFeedback` dataclass. -/
structure HumanFeedback where
  request_id : String
  reviewer_id : String
  action : String
  feedback : String
  suggested_changes : String
  rating : Int
  timestamp : String
deriving DecidableEq, Repr

/-- The mutable state of `HumanLoopInterface`: the `pending_reviews` and
`completed_reviews` lists (requests are appended to `pending_reviews` and never
removed from it; completing one only flips its `status` field). -/
structure HLState where
  pending_reviews : List ReviewRequest
  completed_reviews : List HumanFeedback
deriving DecidableEq, Repr

/-- Python truthiness of the optional `review_type` filter argument:
`None` and the empty string are falsy. -/
def pyTruthyStr : Option String → Bool
  | none => false
  | some s => decide (s ≠ "")

/-- The filter of `get_pending_reviews`: keep a request iff its status is
`'pending'`, it matches the (truthy) `review_type` filter, and its priority is
at least `priority_min`. -/
def passesPendingFilter (review_type : Option String) (priority_min : Int)
    (r : ReviewRequest) : Bool :=
  (r.status = "pending") &&
  (!(pyTruthyStr review_type) || r.review_type = review_type.getD "") &&
  (priority_min ≤ r.priority)

/-- Lexicographic less-or-equal on character lists by code point — exactly
Python's `<=` on strings, which the code's sort key applies to the ISO
`created_at` timestamps. -/
def charListLe : List Char → List Char → Bool
  | [], _ => true
  | _ :: _, [] => false
  | a :: as, b :: bs =>
    if a.toNat < b.toNat then true
    else if b.toNat < a.toNat then false
    else charListLe as bs

/-- Strict lexicographic order on character lists by code point —
Python's `<` on strings. -/
def charListLt : List Char → List Char → Bool
  | [], [] => false
  | [], _ :: _ => true
  | _ :: _, [] => false
  | a :: as, b :: bs =>
    if a.toNat < b.toNat then true
    else if b.toNat < a.toNat then false
    else charListLt as bs

/-- Python string comparison `a <= b` (code-point lexicographic). -/
def strLe (a b : String) : Prop := charListLe a.data b.data = true

/-- Python string comparison `a < b` (code-point lexicographic). -/
def strLt (a b : String) : Prop := charListLt a.data b.data = true

instance (a b : String) : Decidable (strLe a b) :=
  inferInstanceAs (Decidable (_ = true))

instance (a b : String) : Decidable (strLt a b) :=
  inferInstanceAs (Decidable (_ = true))

lemma charListLe_total : ∀ x y, charListLe x y = true ∨ charListLe y x = true
  | [], _ => Or.inl rfl
  | _ :: _, [] => Or.inr rfl
  | a :: as, b :: bs => by
    rcases Nat.lt_trichotomy a.toNat b.toNat with h | h | h
    · left
      simp [charListLe, h]
    · have hnlt : ¬ a.toNat < b.toNat := by omega
      have hnlt' : ¬ b.toNat < a.toNat := by omega
      rcases charListLe_total as bs with ih | ih
      · left
        simp [charListLe, hnlt, hnlt', ih]
      · right
        simp [charListLe, hnlt, hnlt', ih]
    · right
      simp [charListLe, h]

lemma charListLe_trans : ∀ x y z, charListLe x y = true → charListLe y z = true →
    charListLe x z = true
  | [], _, _, _, _ => rfl
  | _ :: _, [], _, h1, _ => by simp [charListLe] at h1
  | _ :: _, _ :: _, [], _, h2 => by simp [charListLe] at h2
  | a :: as, b :: bs, c :: cs, h1, h2 => by
    rcases Nat.lt_trichotomy a.toNat b.toNat with hab | hab | hab
    · rcases Nat.lt_trichotomy b.toNat c.toNat with hbc | hbc | hbc
      · have hac : a.toNat < c.toNat := by omega
        simp [charListLe, hac]
      · have hac : a.toNat < c.toNat := by omega
        simp [charListLe, hac]
      · exfalso
        have hn1 : ¬ b.toNat < c.toNat := by omega
        simp [charListLe, hn1, hbc] at h2
    · have heq : a = b := Char.eq_of_val_eq (UInt32.toNat.inj hab)
      subst heq
      rcases Nat.lt_trichotomy a.toNat c.toNat with hac | hac | hac
      · simp [charListLe, hac]
      · have hn1 : ¬ a.toNat < a.toNat := by omega
        simp only [charListLe, hn1, if_false, ite_self] at h1
        have heq2 : a = c := Char.eq_of_val_eq (UInt32.toNat.inj hac)
        subst heq2
        simp only [charListLe, hn1, if_false, ite_self] at h2 ⊢
        exact charListLe_trans as bs cs h1 h2
      · exfalso
        have hn1 : ¬ a.toNat < c.toNat := by omega
        simp [charListLe, hn1, hac] at h2
    · exfalso
      have hn1 : ¬ a.toNat < b.toNat := by omega
      simp [charListLe, hn1, hab] at h1

lemma charListLt_irrefl : ∀ x, charListLt x x = false
  | [] => rfl
  | a :: as => by
    have hn : ¬ a.toNat < a.toNat := by omega
    simp [charListLt, hn, charListLt_irrefl as]

lemma charListLe_ne_lt : ∀ x y, charListLe x y = true → x ≠ y → charListLt x y = true
  | [], [], _, hne => absurd rfl hne
  | [], _ :: _, _, _ => rfl
  | _ :: _, [], h1, _ => by simp [charListLe] at h1
  | a :: as, b :: bs, h1, hne => by
    rcases Nat.lt_trichotomy a.toNat b.toNat with hab | hab | hab
    · simp [charListLt, hab]
    · have heq : a = b := Char.eq_of_val_eq (UInt32.toNat.inj hab)
      subst heq
      have hn : ¬ a.toNat < a.toNat := by omega
      simp only [charListLe, hn, if_false, ite_self] at h1
      have hne' : as ≠ bs := fun h => hne (by rw [h])
      simp only [charListLt, hn, if_false, ite_self]
      exact charListLe_ne_lt as bs h1 hne'
    · exfalso
      have hn : ¬ a.toNat < b.toNat := by omega
      simp [charListLe, hn, hab] at h1

lemma strLt_of_strLe_ne {a b : String} (h : strLe a b) (hne : a ≠ b) : strLt a b :=
  charListLe_ne_lt a.data b.data h (fun hd => hne (congrArg String.mk hd))

lemma strLt_ne {a b : String} (h : strLt a b) : a ≠ b := by
  intro heq
  subst heq
  rw [strLt, charListLt_irrefl] at h
  exact Bool.noConfusion h

lemma strLt_le {a b : String} (h : strLt a b) : strLe a b := by
  rw [strLt] at h
  rw [strLe]
  revert h
  generalize a.data = x
  generalize b.data = y
  revert y
  induction x with
  | nil => intro y _; cases y <;> rfl
  | cons ha tas ih =>
    intro y h
    cases y with
    | nil => simp [charListLt] at h
    | cons hb tbs =>
      rcases Nat.lt_trichotomy ha.toNat hb.toNat with hab | hab | hab
      · simp [charListLe, hab]
      · have hn : ¬ ha.toNat < hb.toNat := by omega
        have hn2 : ¬ hb.toNat < ha.toNat := by omega
        simp only [charListLt, hn, hn2, if_false, ite_self] at h
        simp only [charListLe, hn, hn2, if_false, ite_self]
        exact ih tbs h
      · have hn : ¬ ha.toNat < hb.toNat := by omega
        simp [charListLt, hn, hab] at h

/-- The comparison realized by Python's stable `sort` with key
`(-priority, created_at)`: `a` may precede `b` iff `a`'s key is
lexicographically at most `b`'s. -/
def reviewOrder (a b : ReviewRequest) : Prop :=
  b.priority < a.priority ∨ (a.priority = b.priority ∧ strLe a.created_at b.created_at)

instance : DecidableRel reviewOrder :=
  fun _ _ => inferInstanceAs (Decidable (_ ∨ _))

instance : IsTotal ReviewRequest reviewOrder := by
  constructor
  intro a b
  rcases lt_trichotomy a.priority b.priority with h | h | h
  · exact Or.inr (Or.inl h)
  · rcases charListLe_total a.created_at.data b.created_at.data with hc | hc
    · exact Or.inl (Or.inr ⟨h, hc⟩)
    · exact Or.inr (Or.inr ⟨h.symm, hc⟩)
  · exact Or.inl (Or.inl h)

instance : IsTrans ReviewRequest reviewOrder := by
  constructor
  intro a b c hab hbc
  rcases hab with h1 | ⟨h1, h1c⟩
  · rcases hbc with h2 | ⟨h2, _⟩
    · exact Or.inl (lt_trans h2 h1)
    · exact Or.inl (h2 ▸ h1)
  · rcases hbc with h2 | ⟨h2, h2c⟩
    · exact Or.inl (h1 ▸ h2)
    · exact Or.inr ⟨h1.trans h2, charListLe_trans _ _ _ h1c h2c⟩

/-- Models `HumanLoopInterface.get_pending_reviews(review_type=None, priority_min=1)`:
filter, then Python's stable sort by `(-priority, created_at)` — embedded as the
stable `insertionSort` with the matching total preorder. -/
def getPendingReviews (st : HLState) (review_type : Option String)
    (priority_min : Int) : List ReviewRequest :=
  List.insertionSort reviewOrder
    (st.pending_reviews.filter (passesPendingFilter review_type priority_min))

/-- Models `_find_request_by_id`: the first request of `pending_reviews` with the
given id, regardless of its status. -/
def findRequestById (st : HLState) (request_id : String) : Option ReviewRequest :=
  st.pending_reviews.find? (fun r => r.request_id = request_id)

/-- Models the Python mutation `request.status = 'completed'` on the object
returned by `_find_request_by_id`: the first request with this id gets its
status field replaced. -/
def completeFirstMatch : List ReviewRequest → String → List ReviewRequest
  | [], _ => []
  | r :: rs, rid =>
    if r.request_id = rid then { r with status := "completed" } :: rs
    else r :: completeFirstMatch rs rid

/-- Models `HumanLoopInterface.collect_human_feedback(request_id, reviewer_id)`.
The interactive `input()` loops re-prompt until an accepted value; the accepted
answers are the `action`, `feedbackText`, `suggested` and `rating` parameters,
and `ts` is `datetime.now().isoformat()`.  Returns `none` (the Python `None`)
when the request id is not found, else the created feedback and the new state:
status of the found request set to `'completed'`, feedback appended to
`completed_reviews`.  The found request's *current* status is never examined. -/
def collectHumanFeedback (st : HLState) (request_id reviewer_id action feedbackText
    suggested ts : String) (rating : Int) : Option HumanFeedback × HLState :=
  match findRequestById st request_id with
  | none => (none, st)
  | some _ =>
    let fb : HumanFeedback :=
      { request_id := request_id
        reviewer_id := reviewer_id
        action := action
        feedback := feedbackText
        suggested_changes := suggested
        rating := rating
        timestamp := ts }
    let st1 : HLState :=
      { pending_reviews := completeFirstMatch st.pending_reviews request_id
        completed_reviews := st.completed_reviews ++ [fb] }
    (some fb, st1)

/-- The feedback lookup at the top of each `wait_for_feedback` loop iteration:
first entry of `completed_reviews` with the given request id. -/
def feedbackFor (l : List HumanFeedback) (request_id : String) : Option HumanFeedback :=
  l.find? (fun f => f.request_id = request_id)

/-- The polling loop of `wait_for_feedback`.  `arrivals t` is the
`completed_reviews` list as the rest of the system has left it at elapsed time
`t`; each `asyncio.sleep(10)` advances elapsed time by 10.  An iteration first
looks for feedback, then returns the timeout signal (`None`) when
`elapsed > timeout`, else sleeps and repeats. -/
def waitLoop (arrivals : Nat → List HumanFeedback) (request_id : String)
    (timeout : Nat) (t : Nat) : Option HumanFeedback :=
  match feedbackFor (arrivals t) request_id with
  | some f => some f
  | none =>
    if h : timeout < t then none
    else waitLoop arrivals request_id timeout (t + 10)
termination_by timeout + 1 - t
decreasing_by omega

/-- Models `HumanLoopInterface.wait_for_feedback(request_id, timeout=3600)`:
the polling loop started at elapsed time 0. -/
def waitForFeedback (arrivals : Nat → List HumanFeedback) (request_id : String)
    (timeout : Nat) : Option HumanFeedback :=
  waitLoop arrivals request_id timeout 0

/-- States of the storage layer reachable from a fresh (empty) manager by
`store_content` calls. -/
inductive Reachable : ChromaState → Prop where
  | init : Reachable ⟨[], []⟩
  | store (st : ChromaState) (content chapter_id : String) (version : Nat)
      (extra : List (String × String)) (ts uuidHex : String) :
      Reachable st →
      Reachable (storeContent st content chapter_id version extra ts uuidHex).2

/-! ## Helper lemmas about the storage layer -/

lemma updateVersionTracking_content (st : ChromaState) (cid : String) (v : Nat)
    (did h ts : String) :
    (updateVersionTracking st cid v did h ts).content_collection = st.content_collection := by
  simp only [updateVersionTracking]
  split <;> rfl

lemma storeContent_content_collection (st : ChromaState) (content cid : String) (v : Nat)
    (extra : List (String × String)) (ts uuid : String) :
    ((storeContent st content cid v extra ts uuid).2).content_collection =
      st.content_collection ++
        [⟨docIdFor cid v uuid, content, mkStoreMeta content cid v extra ts⟩] := by
  unfold storeContent
  rw [updateVersionTracking_content]

lemma storeContent_versions_collection (st : ChromaState) (content cid : String) (v : Nat)
    (extra : List (String × String)) (ts uuid : String) :
    ((storeContent st content cid v extra ts uuid).2).versions_collection =
      if st.versions_collection.any (fun e => e.version_id = versionIdFor cid v) then
        st.versions_collection
      else
        st.versions_collection ++
          [⟨versionIdFor cid v, cid, v, docIdFor cid v uuid, generateContentHash content, ts⟩] := by
  simp only [storeContent, updateVersionTracking, mkStoreMeta]
  split <;> rfl

/-- Auxiliary invariant of reachable storage states: every version-tracking
entry carries the canonical id of its (chapter, version) pair, and the ids are
pairwise distinct (a second `add` under an existing id leaves the collection
unchanged). -/
lemma reachable_versions_invariant (st : ChromaState) (h : Reachable st) :
    (∀ e ∈ st.versions_collection, e.version_id = versionIdFor e.chapter_id e.version) ∧
      List.Pairwise (fun e1 e2 => e1.version_id ≠ e2.version_id) st.versions_collection := by
  induction h with
  | init => exact ⟨by simp, by simp⟩
  | store st content cid v extra ts uuid _ ih =>
    obtain ⟨ih1, ih2⟩ := ih
    rw [storeContent_versions_collection]
    by_cases hany : st.versions_collection.any (fun e => e.version_id = versionIdFor cid v)
    · rw [if_pos hany]
      exact ⟨ih1, ih2⟩
    · rw [if_neg hany]
      have hnotin : ∀ e ∈ st.versions_collection, ¬ e.version_id = versionIdFor cid v := by
        intro e he
        have hfalse : st.versions_collection.any
            (fun e => e.version_id = versionIdFor cid v) = false :=
          Bool.not_eq_true _ ▸ hany
        have := List.any_eq_false.mp hfalse e he
        simpa using this
      constructor
      · intro e he
        rcases List.mem_append.mp he with hmem | hmem
        · exact ih1 e hmem
        · rcases List.mem_singleton.mp hmem with rfl
          rfl
      · rw [List.pairwise_append]
        refine ⟨ih2, List.pairwise_singleton _ _, ?_⟩
        intro e he e' he'
        rcases List.mem_singleton.mp he' with rfl
        exact hnotin e he

/-! ## Claim C1 -/

/-- Claim C1, counterexample.  The claim says each `store_content` call assigns
`version = (max existing version for the entity) + 1`, so that two successive
calls for `"ch"` would store versions `[1, 2]`.  In the code `version` is a
caller-supplied parameter with default `1`: two calls with the default store
versions `[1, 1]` — the second call's version is `1`, not `max + 1 = 2`, and the
sequence is not strictly increasing. -/
theorem store_content_default_version_repeats :
    ((storeContent ((storeContent ⟨[], []⟩ "alpha" "ch" 1 [] "t1" "u1").2)
        "beta" "ch" 1 [] "t2" "u2").2).content_collection.map
        (fun d => d.meta.version) = [1, 1] ∧
      ¬ List.Pairwise (fun a b => a < b)
        (((storeContent ((storeContent ⟨[], []⟩ "alpha" "ch" 1 [] "t1" "u1").2)
            "beta" "ch" 1 [] "t2" "u2").2).content_collection.map
          (fun d => d.meta.version)) := by
  constructor
  · decide
  · decide

/-- Claim C1, amended claim.  `store_content` stores the snapshot under the
caller-supplied `version` argument (default `1`), regardless of the versions
already present: the stored version sequence is the old one with the argument
appended.  Strictly increasing, gap-free versions are obtained only if the
caller passes them. -/
theorem store_content_version_is_caller_argument (st : ChromaState)
    (content cid : String) (v : Nat) (extra : List (String × String)) (ts uuid : String) :
    ((storeContent st content cid v extra ts uuid).2).content_collection.map
        (fun d => d.meta.version) =
      st.content_collection.map (fun d => d.meta.version) ++ [v] := by
  rw [storeContent_content_collection]
  simp [mkStoreMeta]

/-! ## Claim C2 -/

/-- Claim C2, counterexample.  A state reachable by two `store_content` calls (both
with the default `version=1`) holds two content snapshots with the same
`(entity_id, version)` pair `("ch", 1)`: the claimed uniqueness invariant does
not hold for the content collection. -/
theorem duplicate_entity_version_pair_reachable :
    Reachable ((storeContent ((storeContent ⟨[], []⟩ "alpha" "ch" 1 [] "t1" "u1").2)
        "beta" "ch" 1 [] "t2" "u2").2) ∧
      ((storeContent ((storeContent ⟨[], []⟩ "alpha" "ch" 1 [] "t1" "u1").2)
          "beta" "ch" 1 [] "t2" "u2").2).content_collection.map
          (fun d => (d.meta.chapter_id, d.meta.version)) = [("ch", 1), ("ch", 1)] :=
  ⟨Reachable.store _ _ _ _ _ _ _ (Reachable.store _ _ _ _ _ _ _ Reachable.init),
    by decide⟩

/-- Claim C2, amended claim.  Uniqueness of `(entity_id, version)` holds for the
version-*tracking* collection only: in every reachable state, no two entries of
`content_versions` share an `(entity_id, version)` pair, because a second `add`
under the same `version_{chapter_id}_{version}` id fails and is swallowed.  The
content collection itself may hold several snapshots with the same pair (see the
counterexample). -/
theorem version_tracking_pairs_unique (st : ChromaState) (h : Reachable st) :
    List.Pairwise (fun e1 e2 => ¬(e1.chapter_id = e2.chapter_id ∧ e1.version = e2.version))
      st.versions_collection := by
  obtain ⟨h1, h2⟩ := reachable_versions_invariant st h
  refine List.Pairwise.imp_of_mem ?_ h2
  intro e1 e2 h1m h2m hne hpair
  exact hne (by rw [h1 e1 h1m, h1 e2 h2m, hpair.1, hpair.2])

/-- Claim C2, witness. -/
theorem version_tracking_pairs_unique_witness :
    List.Pairwise (fun e1 e2 => ¬(e1.chapter_id = e2.chapter_id ∧ e1.version = e2.version))
      ((storeContent ⟨[], []⟩ "alpha" "ch" 1 [] "t1" "u1").2).versions_collection :=
  version_tracking_pairs_unique _ (Reachable.store _ _ _ _ _ _ _ Reachable.init)

/-! ## Claim C5 -/

/-- Claim C5, counterexample.  Storing the byte-identical content `"x"` a second
time under `"ch"` yields a stored metadata record *identical* to the first
(non-duplicate) store's record: `store_content` neither checks for an existing
matching `content_hash` nor sets any duplicate flag in the result metadata — no
field distinguishes the duplicate store from a fresh one.  (The two documents do
get distinct ids, so the duplicate is stored as an additional snapshot.) -/
theorem duplicate_store_metadata_identical :
    ((storeContent ((storeContent ⟨[], []⟩ "x" "ch" 1 [] "t" "u1").2)
        "x" "ch" 1 [] "t" "u2").2).content_collection.map (fun d => d.meta) =
      [mkStoreMeta "x" "ch" 1 [] "t", mkStoreMeta "x" "ch" 1 [] "t"] ∧
      ((storeContent ((storeContent ⟨[], []⟩ "x" "ch" 1 [] "t" "u1").2)
          "x" "ch" 1 [] "t" "u2").2).content_collection.map (fun d => d.doc_id) =
        ["ch_v1_u1", "ch_v1_u2"] := by
  constructor
  · rfl
  · decide

/-- Claim C5, amended claim.  Storing byte-identical content a second time under
the same entity_id produces a snapshot whose `content_hash` equals the first
one's (duplicates are *detectable* by comparing hashes), and the snapshot is
appended as a distinct document — no data loss.  But `store_content` performs no
duplicate detection itself and flags nothing: the stored document (metadata
included) is a function of the call arguments alone, independent of the prior
state, as the appended document in the statement below shows. -/
theorem store_content_duplicate_detectable_not_flagged (st : ChromaState)
    (content cid : String) (v : Nat) (extra : List (String × String)) (ts uuid : String) :
    ((storeContent st content cid v extra ts uuid).2).content_collection =
        st.content_collection ++
          [⟨docIdFor cid v uuid, content, mkStoreMeta content cid v extra ts⟩] ∧
      (mkStoreMeta content cid v extra ts).content_hash = generateContentHash content :=
  ⟨storeContent_content_collection st content cid v extra ts uuid, rfl⟩

/-! ## Helper lemmas about retrieval -/

lemma latestDoc_spec (st : ChromaState) (cid : String)
    (h : chapterDocs st cid ≠ []) :
    ∃ d, latestDoc st cid = some d ∧ d ∈ chapterDocs st cid ∧
      ∀ d' ∈ chapterDocs st cid, d'.meta.version ≤ d.meta.version := by
  have hperm := List.perm_insertionSort versionGe (chapterDocs st cid)
  have hsorted := List.sorted_insertionSort versionGe (chapterDocs st cid)
  cases hs : List.insertionSort versionGe (chapterDocs st cid) with
  | nil =>
    rw [hs] at hperm
    exact absurd hperm.symm.eq_nil h
  | cons d rest =>
    have hmemS : d ∈ List.insertionSort versionGe (chapterDocs st cid) := by
      rw [hs]; exact List.mem_cons_self d rest
    have hmemd : d ∈ chapterDocs st cid := hperm.mem_iff.mp hmemS
    refine ⟨d, ?_, hmemd, ?_⟩
    · unfold latestDoc
      rw [hs]
      rfl
    · intro d' hd'
      have hd'S : d' ∈ List.insertionSort versionGe (chapterDocs st cid) :=
        hperm.mem_iff.mpr hd'
      rw [hs] at hd'S
      rcases List.mem_cons.mp hd'S with rfl | hmem
      · exact le_refl _
      · rw [hs] at hsorted
        exact List.rel_of_sorted_cons hsorted d' hmem

lemma retrieveContent_none_eq (st : ChromaState) (cid : String) :
    retrieveContent st cid none =
      match latestDoc st cid with
      | some d => some (d.content, d.meta)
      | none => none := rfl

/-- A concrete storage state holding two versions of chapter `"ch"`,
used to instantiate the retrieval theorems. -/
def exampleChromaState : ChromaState :=
  ⟨[⟨"ch_v1_u1", "alpha", mkStoreMeta "alpha" "ch" 1 [] "t1"⟩,
    ⟨"ch_v2_u2", "beta", mkStoreMeta "beta" "ch" 2 [] "t2"⟩], []⟩

/-! ## Claim C3 -/

/-- Claim C3.  For every entity with at least one stored snapshot,
`retrieve_content(chapter_id, version=None)` returns a stored snapshot of that
entity whose version number is the maximum over all its snapshots: the code
sorts the entity's documents by metadata version, descending and stably, and
returns the first. -/
theorem retrieve_latest_returns_max_version (st : ChromaState) (cid : String)
    (h : chapterDocs st cid ≠ []) :
    ∃ d ∈ chapterDocs st cid,
      retrieveContent st cid none = some (d.content, d.meta) ∧
        ∀ d' ∈ chapterDocs st cid, d'.meta.version ≤ d.meta.version := by
  obtain ⟨d, hld, hmem, hmax⟩ := latestDoc_spec st cid h
  exact ⟨d, hmem, by rw [retrieveContent_none_eq, hld], hmax⟩

/-- Claim C3, witness. -/
theorem retrieve_latest_returns_max_version_witness :
    ∃ d ∈ chapterDocs exampleChromaState "ch",
      retrieveContent exampleChromaState "ch" none = some (d.content, d.meta) ∧
        ∀ d' ∈ chapterDocs exampleChromaState "ch", d'.meta.version ≤ d.meta.version :=
  retrieve_latest_returns_max_version exampleChromaState "ch" (by decide)

/-! ## Claim C4 -/

/-- Claim C4.  `retrieve_content` signals not-found — the
`{"found": False, "error": "Content not found"}` result, the code's realization
of the spec's `NotFoundError`, modelled as `none` — whenever the entity has no
snapshots (for `version=None`), and whenever a specifically requested (positive,
per the data model) version does not exist under that entity. -/
theorem retrieve_missing_not_found (st : ChromaState) (cid : String) :
    (chapterDocs st cid = [] → retrieveContent st cid none = none) ∧
      (∀ v : Nat, 0 < v →
        st.content_collection.filter
            (fun d => d.meta.chapter_id = cid ∧ d.meta.version = v) = [] →
          retrieveContent st cid (some v) = none) := by
  constructor
  · intro hempty
    rw [retrieveContent_none_eq]
    unfold latestDoc
    rw [hempty]
    rfl
  · intro v hv hempty
    have hvne : v ≠ 0 := Nat.pos_iff_ne_zero.mp hv
    have hall := List.filter_eq_nil_iff.mp hempty
    have hnone : List.find?
        (fun d => decide (d.meta.chapter_id = cid) && decide (d.meta.version = v))
        st.content_collection = none := by
      rw [List.find?_eq_none]
      intro d hd
      have h2 := hall d hd
      simp at h2 ⊢
      tauto
    simp [retrieveContent, hvne, hnone]

/-- Claim C4, witness. -/
theorem retrieve_missing_not_found_witness :
    retrieveContent exampleChromaState "other" none = none ∧
      retrieveContent exampleChromaState "ch" (some 5) = none :=
  ⟨(retrieve_missing_not_found exampleChromaState "other").1 (by decide),
   (retrieve_missing_not_found exampleChromaState "ch").2 5 (by decide) (by decide)⟩

/-! ## Claim C10 -/

/-- Claim C10.  `retrieve_content(chapter_id, version=0)` behaves exactly like
`version=None`: the code tests `if version:` (truthiness), so `0` falls through
to the latest-version branch and, when the entity has snapshots, the result is
the maximum-version snapshot — not a version-0 lookup and not a not-found
result. -/
theorem retrieve_version_zero_behaves_as_none (st : ChromaState) (cid : String) :
    retrieveContent st cid (some 0) = retrieveContent st cid none ∧
      (chapterDocs st cid ≠ [] →
        ∃ d ∈ chapterDocs st cid,
          retrieveContent st cid (some 0) = some (d.content, d.meta) ∧
            ∀ d' ∈ chapterDocs st cid, d'.meta.version ≤ d.meta.version) := by
  have heq : retrieveContent st cid (some 0) = retrieveContent st cid none := rfl
  refine ⟨heq, fun h => ?_⟩
  obtain ⟨d, hld, hmem, hmax⟩ := latestDoc_spec st cid h
  exact ⟨d, hmem, by rw [heq, retrieveContent_none_eq, hld], hmax⟩

/-- Claim C10, witness. -/
theorem retrieve_version_zero_behaves_as_none_witness :
    retrieveContent exampleChromaState "ch" (some 0) =
        retrieveContent exampleChromaState "ch" none ∧
      ∃ d ∈ chapterDocs exampleChromaState "ch",
        retrieveContent exampleChromaState "ch" (some 0) = some (d.content, d.meta) ∧
          ∀ d' ∈ chapterDocs exampleChromaState "ch", d'.meta.version ≤ d.meta.version :=
  ⟨(retrieve_version_zero_behaves_as_none exampleChromaState "ch").1,
   (retrieve_version_zero_behaves_as_none exampleChromaState "ch").2 (by decide)⟩

/-! ## Claim C6 -/

/-- A review request whose feedback has already been collected: its status is
`'completed'`, but it still sits in `pending_reviews` (requests are never
removed from that list). -/
def exampleCompletedRequest : ReviewRequest :=
  ⟨"r1", "new text", "old text", [], "reviewer", 3, "t0", "completed"⟩

/-- The feedback originally stored for `exampleCompletedRequest`. -/
def exampleOriginalFeedback : HumanFeedback :=
  ⟨"r1", "alice", "approve", "ok", "", 8, "t1"⟩

/-- A ledger state in which request `"r1"` is already completed with feedback. -/
def exampleHLState : HLState :=
  ⟨[exampleCompletedRequest], [exampleOriginalFeedback]⟩

/-- Claim C6, counterexample.  Submitting feedback again for the already-completed
request `"r1"` does not fail: `_find_request_by_id` never inspects the status,
so `collect_human_feedback` succeeds, returns a second feedback object, and
appends it to `completed_reviews` (the model's failure result, the Python
`None`, is `none`; the claim demands a failure here). -/
theorem resubmission_to_completed_request_succeeds :
    (collectHumanFeedback exampleHLState "r1" "bob" "revise" "needs work" "" "t2" 6).1 =
        some ⟨"r1", "bob", "revise", "needs work", "", 6, "t2"⟩ ∧
      (collectHumanFeedback exampleHLState "r1" "bob" "revise" "needs work" "" "t2" 6).2.completed_reviews =
        [exampleOriginalFeedback, ⟨"r1", "bob", "revise", "needs work", "", 6, "t2"⟩] := by
  constructor
  · decide
  · decide

/-- Claim C6, amended claim.  Re-submitting feedback for a `completed` request does
*not* fail with `AlreadyCompletedError` (no such check or error exists):
whenever the request id is found — its status, `'completed'` included, is never
examined — `collect_human_feedback` succeeds and appends a new feedback record
to `completed_reviews`.  The originally stored feedback does remain unchanged,
since the list is append-only. -/
theorem collect_feedback_ignores_completed_status (st : HLState)
    (rid reviewer action fbt sugg ts : String) (rating : Int)
    (req : ReviewRequest) (hfind : findRequestById st rid = some req) :
    ∃ fb : HumanFeedback,
      (collectHumanFeedback st rid reviewer action fbt sugg ts rating).1 = some fb ∧
        (collectHumanFeedback st rid reviewer action fbt sugg ts rating).2.completed_reviews =
          st.completed_reviews ++ [fb] := by
  refine ⟨⟨rid, reviewer, action, fbt, sugg, rating, ts⟩, ?_, ?_⟩ <;>
    simp [collectHumanFeedback, hfind]

/-- Claim C6, witness. -/
theorem collect_feedback_ignores_completed_status_witness :
    ∃ fb : HumanFeedback,
      (collectHumanFeedback exampleHLState "r1" "carol" "approve" "good" "" "t3" 9).1 =
          some fb ∧
        (collectHumanFeedback exampleHLState "r1" "carol" "approve" "good" "" "t3" 9).2.completed_reviews =
          exampleHLState.completed_reviews ++ [fb] :=
  collect_feedback_ignores_completed_status exampleHLState "r1" "carol" "approve" "good" ""
    "t3" 9 exampleCompletedRequest (by decide)

/-! ## Claim C7 -/

/-- The four requests of the spec's ordering example: priorities `[2, 5, 5, 1]`
submitted in that order, at strictly increasing timestamps. -/
def exReqP2 : ReviewRequest := ⟨"q1", "c1", "o1", [], "reviewer", 2, "t1", "pending"⟩

/-- Second submission of the ordering example (priority 5). -/
def exReqP5a : ReviewRequest := ⟨"q2", "c2", "o2", [], "reviewer", 5, "t2", "pending"⟩

/-- Third submission of the ordering example (priority 5). -/
def exReqP5b : ReviewRequest := ⟨"q3", "c3", "o3", [], "reviewer", 5, "t3", "pending"⟩

/-- Fourth submission of the ordering example (priority 1). -/
def exReqP1 : ReviewRequest := ⟨"q4", "c4", "o4", [], "reviewer", 1, "t4", "pending"⟩

/-- The ledger state of the spec's ordering example. -/
def examplePendingState : HLState := ⟨[exReqP2, exReqP5a, exReqP5b, exReqP1], []⟩

/-- Claim C7.  `get_pending_reviews` returns exactly the still-pending requests
passing the reviewer-type and minimum-priority filters (a permutation of the
filtered list), ordered by `(priority desc, created_at asc)`; and whenever the
pending list was submitted at strictly increasing timestamps (`created_at`
reflects submission order, as `datetime.now()` guarantees), priority ties are
returned strictly in submission (FIFO) order.  The spec's concrete example —
priorities `[2, 5, 5, 1]` submitted in that order come back as
`[5 (1st), 5 (2nd), 2, 1]` — is the fourth conjunct. -/
theorem get_pending_reviews_filter_sort_fifo (st : HLState)
    (review_type : Option String) (priority_min : Int) :
    List.Perm (getPendingReviews st review_type priority_min)
        (st.pending_reviews.filter (passesPendingFilter review_type priority_min)) ∧
      List.Pairwise reviewOrder (getPendingReviews st review_type priority_min) ∧
      (List.Pairwise (fun a b => strLt a.created_at b.created_at) st.pending_reviews →
        List.Pairwise
          (fun a b => b.priority < a.priority ∨
            (a.priority = b.priority ∧ strLt a.created_at b.created_at))
          (getPendingReviews st review_type priority_min)) ∧
      getPendingReviews examplePendingState none 1 = [exReqP5a, exReqP5b, exReqP2, exReqP1] := by
  refine ⟨List.perm_insertionSort _ _, List.sorted_insertionSort _ _, fun hmono => ?_, by decide⟩
  have hfil : List.Pairwise (fun a b => strLt a.created_at b.created_at)
      (st.pending_reviews.filter (passesPendingFilter review_type priority_min)) :=
    List.Pairwise.sublist (List.filter_sublist _) hmono
  have hne : List.Pairwise (fun a b => a.created_at ≠ b.created_at)
      (getPendingReviews st review_type priority_min) := by
    refine ((List.perm_insertionSort reviewOrder _).pairwise_iff ?_).mpr
      (hfil.imp fun h => strLt_ne h)
    intro x y hxy
    exact hxy.symm
  have hsorted : List.Pairwise reviewOrder (getPendingReviews st review_type priority_min) :=
    List.sorted_insertionSort reviewOrder _
  refine (hsorted.and hne).imp ?_
  rintro a b ⟨hord, hnee⟩
  rcases hord with h | ⟨hp, hle⟩
  · exact Or.inl h
  · exact Or.inr ⟨hp, strLt_of_strLe_ne hle hnee⟩

/-- Claim C7, witness. -/
theorem get_pending_reviews_filter_sort_fifo_witness :
    List.Pairwise
      (fun a b => b.priority < a.priority ∨
        (a.priority = b.priority ∧ strLt a.created_at b.created_at))
      (getPendingReviews examplePendingState none 1) :=
  ((get_pending_reviews_filter_sort_fifo examplePendingState none 1).2.2.1 (by decide))

/-! ## Claim C8 -/

lemma buildSearchResults_scores (i : Nat) (l : List ((String × StoreMeta) × ℚ)) :
    (buildSearchResults i l).map (fun r => r.similarity_score) =
      l.map (fun p => 1 - p.2) := by
  induction l generalizing i with
  | nil => rfl
  | cons p rest ih =>
    cases p with
    | mk dm d =>
      cases dm with
      | mk doc meta => simp [buildSearchResults, ih]

lemma pairwise_zip_right {α β : Type} {r : β → β → Prop} :
    ∀ (l : List α) (c : List β), List.Pairwise r c →
      List.Pairwise (fun p q => r p.2 q.2) (l.zip c)
  | [], _, _ => List.Pairwise.nil
  | _ :: _, [], _ => List.Pairwise.nil
  | a :: as, b :: bs, h => by
    rcases List.pairwise_cons.mp h with ⟨hb, hrest⟩
    refine List.pairwise_cons.mpr ⟨?_, pairwise_zip_right as bs hrest⟩
    intro q hq
    exact hb q.2 (List.of_mem_zip hq).2

lemma mem_buildSearchResults_score {r : SearchResult} :
    ∀ (i : Nat) (l : List ((String × StoreMeta) × ℚ)), r ∈ buildSearchResults i l →
      ∃ p ∈ l, r.similarity_score = 1 - p.2
  | _, [], h => absurd h (List.not_mem_nil r)
  | i, ((doc, meta), d) :: rest, h => by
    rcases List.mem_cons.mp h with rfl | hmem
    · exact ⟨((doc, meta), d), List.mem_cons_self _ _, rfl⟩
    · obtain ⟨q, hq, hs⟩ := mem_buildSearchResults_score (i + 1) rest hmem
      exact ⟨q, List.mem_cons_of_mem _ hq, hs⟩

/-- Claim C8, counterexample.  The code computes `similarity_score = 1 - distance`
with no clamping: a backend distance of `3/2` (cosine distance ranges up to 2,
squared L2 is unbounded) produces the returned score `-1/2`, which does not lie
in `[0, 1]` as the claim asserts of every returned score. -/
theorem search_score_below_zero :
    (searchSimilarContent ⟨["doc"], [mkStoreMeta "doc" "ch" 1 [] "t"], [3/2]⟩).map
        (fun r => r.similarity_score) = [-(1/2 : ℚ)] ∧
      ¬ (0 : ℚ) ≤ -(1/2 : ℚ) := by
  constructor
  · simp [searchSimilarContent, buildSearchResults]
    norm_num
  · norm_num

/-- Claim C8, amended claim.  Each returned result's score is `1 - distance` with
*no* clamping, in the backend's order: the score list equals `1 - d` mapped over
the (zip-truncated) distances; it is descending whenever the backend returns
distances ascending (its native order); and every score lies in `[0, 1]` only
under the additional assumption that every backend distance lies in `[0, 1]` —
for distances above 1 the score goes negative (see the counterexample). -/
theorem search_scores_unclamped_ordered (resp : QueryResponse) :
    ((searchSimilarContent resp).map (fun r => r.similarity_score) =
        ((resp.documents.zip resp.metadatas).zip resp.distances).map (fun p => 1 - p.2)) ∧
      (List.Pairwise (fun d1 d2 => d1 ≤ d2) resp.distances →
        List.Pairwise (fun r1 r2 => r2.similarity_score ≤ r1.similarity_score)
          (searchSimilarContent resp)) ∧
      ((∀ d ∈ resp.distances, 0 ≤ d ∧ d ≤ 1) →
        ∀ r ∈ searchSimilarContent resp,
          0 ≤ r.similarity_score ∧ r.similarity_score ≤ 1) := by
  refine ⟨buildSearchResults_scores 0 _, fun hasc => ?_, fun hrange r hr => ?_⟩
  · have hz : List.Pairwise (fun p q => p.2 ≤ q.2)
        ((resp.documents.zip resp.metadatas).zip resp.distances) :=
      pairwise_zip_right _ _ hasc
    have hmap : List.Pairwise (fun x y => y ≤ x)
        (((resp.documents.zip resp.metadatas).zip resp.distances).map (fun p => 1 - p.2)) :=
      List.pairwise_map.mpr (hz.imp fun h => by linarith)
    rw [← buildSearchResults_scores 0] at hmap
    exact List.pairwise_map.mp hmap
  · obtain ⟨p, hp, hs⟩ := mem_buildSearchResults_score 0 _ hr
    have hd : p.2 ∈ resp.distances := (List.of_mem_zip hp).2
    obtain ⟨h0, h1⟩ := hrange p.2 hd
    rw [hs]
    constructor <;> linarith

/-- A backend reply with two hits at ascending in-range distances. -/
def exampleQueryResponse : QueryResponse :=
  ⟨["alpha", "beta"], [mkStoreMeta "alpha" "ch" 1 [] "t1", mkStoreMeta "beta" "ch" 2 [] "t2"],
    [0, 1/2]⟩

/-- Claim C8, witness. -/
theorem search_scores_unclamped_ordered_witness :
    List.Pairwise (fun r1 r2 => r2.similarity_score ≤ r1.similarity_score)
        (searchSimilarContent exampleQueryResponse) ∧
      ∀ r ∈ searchSimilarContent exampleQueryResponse,
        0 ≤ r.similarity_score ∧ r.similarity_score ≤ 1 :=
  ⟨(search_scores_unclamped_ordered exampleQueryResponse).2.1
      (by simp [exampleQueryResponse]),
   (search_scores_unclamped_ordered exampleQueryResponse).2.2
      (by intro d hd; simp [exampleQueryResponse] at hd; rcases hd with rfl | rfl <;> norm_num)⟩

/-! ## Claim C9 -/

lemma waitLoop_none (arrivals : Nat → List HumanFeedback) (rid : String) (timeout : Nat)
    (h : ∀ t, feedbackFor (arrivals t) rid = none) :
    ∀ n t, timeout + 1 - t ≤ n → waitLoop arrivals rid timeout t = none := by
  intro n
  induction n with
  | zero =>
    intro t hle
    rw [waitLoop, h t]
    have hlt : timeout < t := by omega
    simp [hlt]
  | succ n ih =>
    intro t hle
    rw [waitLoop, h t]
    by_cases hlt : timeout < t
    · simp [hlt]
    · simp only [hlt, dite_false]
      exact ih (t + 10) (by omega)

/-- The feedback that arrives only strictly after elapsed time 0. -/
def lateFeedback : HumanFeedback := ⟨"r1", "alice", "approve", "ok", "", 8, "t9"⟩

/-- A `completed_reviews` history in which feedback for `"r1"` is present at
every elapsed time except 0 — it arrives during the first 10-unit sleep. -/
def lateArrivals : Nat → List HumanFeedback :=
  fun t => if t = 0 then [] else [lateFeedback]

/-- Claim C9, counterexample.  `wait_for_feedback(request_id, timeout=0)` on a
request still pending at elapsed time 0 does not return the timeout signal
immediately: the loop checks feedback first, sees `elapsed > timeout` is false
(`0 > 0`), sleeps one 10-unit poll interval, and on the next iteration returns
the feedback that arrived during the sleep — success, after the caller's
timeout elapsed, and not the claimed immediate timeout signal (`none`). -/
theorem wait_zero_timeout_returns_late_feedback :
    waitForFeedback lateArrivals "r1" 0 = some lateFeedback := by
  rw [waitForFeedback, waitLoop]
  have h0 : feedbackFor (lateArrivals 0) "r1" = none := by decide
  rw [h0]
  dsimp only
  rw [dif_neg (by omega : ¬ (0 : Nat) < 0)]
  rw [waitLoop]
  have h10 : feedbackFor (lateArrivals 10) "r1" = some lateFeedback := by decide
  rw [h10]

/-- Claim C9, amended claim.  The wait is a 10-unit-interval poll that checks
feedback *before* the timeout test, and times out only at the first poll instant
strictly past the timeout: (1) if feedback never arrives, the call returns the
distinguishable timeout signal (`none`, the Python `None`) for every timeout;
(2) with `timeout=0` on a request still pending at time 0, the call does not
return immediately — feedback arriving within the first sleep interval is
returned as success. -/
theorem wait_for_feedback_polling (arrivals : Nat → List HumanFeedback) (rid : String)
    (timeout : Nat) (f : HumanFeedback) :
    ((∀ t, feedbackFor (arrivals t) rid = none) →
        waitForFeedback arrivals rid timeout = none) ∧
      (feedbackFor (arrivals 0) rid = none → feedbackFor (arrivals 10) rid = some f →
        waitForFeedback arrivals rid 0 = some f) := by
  constructor
  · intro h
    exact waitLoop_none arrivals rid timeout h _ 0 (le_refl _)
  · intro h0 h10
    rw [waitForFeedback, waitLoop, h0]
    dsimp only
    rw [dif_neg (by omega : ¬ (0 : Nat) < 0)]
    rw [waitLoop, h10]

/-- Claim C9, witness. -/
theorem wait_for_feedback_polling_witness :
    waitForFeedback (fun _ => []) "r1" 0 = none ∧
      waitForFeedback lateArrivals "r1" 0 = some lateFeedback :=
  ⟨(wait_for_feedback_polling (fun _ => []) "r1" 0 lateFeedback).1 (fun _ => rfl),
   (wait_for_feedback_polling lateArrivals "r1" 0 lateFeedback).2 (by decide) (by decide)⟩

end BookPublisher
